import Mathlib

set_option autoImplicit false

/-!
Verification of the gocomet publish/subscribe server core.

Go strings are modelled as lists of characters, Go maps as association
lists in insertion order (a deterministic stand-in for the unspecified
map iteration order), and pointer identity of allocated objects (rules,
channels, list elements) as natural-number tags drawn from an allocation
counter threaded through the operations.
-/

namespace Gocomet

abbrev Str := List Char

def str (x : String) : Str := x.data

/-- Association-list lookup, mirroring a Go map read `m[k]`. -/
def alookup {α β : Type} [DecidableEq α] : List (α × β) → α → Option β
  | [], _ => none
  | (k, v) :: rest, key => if key = k then some v else alookup rest key

/-- Association-list write, mirroring a Go map assignment `m[k] = v`. -/
def aset {α β : Type} [DecidableEq α] : List (α × β) → α → β → List (α × β)
  | [], k, v => [(k, v)]
  | (k', v') :: rest, k, v => if k = k' then (k', v) :: rest else (k', v') :: aset rest k v

/-- Association-list key deletion, mirroring Go `delete(m, k)`. -/
def aremove {α β : Type} [DecidableEq α] : List (α × β) → α → List (α × β)
  | [], _ => []
  | (k', v') :: rest, k => if k = k' then rest else (k', v') :: aremove rest k

/--
Split a path at its first `*`, as `strings.Index(path, "*")` does in
`Router.add`: returns `some (pfx, part)` when the first `*` occurs at
position `|pfx|` (so `path = pfx ++ part` and `part` starts with `*`),
and `none` when the path contains no `*`.
-/
def splitStar : Str → Option (Str × Str)
  | [] => none
  | c :: cs =>
    if c = '*' then some ([], '*' :: cs)
    else (splitStar cs).map (fun pr => (c :: pr.1, pr.2))

end Gocomet

/-! ## Router (router.go)

The routing trie.  A node holds `rules` (node-local pattern remainder to
the set of subscriber ids, as a map keyed by subscriber id, following
`rules map[string]map[string]*Rule`) and `children` (shared-prefix string
to child node).  A `*Rule` allocation is identified by a numeric tag from
a counter threaded through the operations, and its `router` back-pointer
by the chain of child keys (`addr`) leading from the root to the owning
node. -/

namespace Gocomet

/-- Node-local rule table: pattern remainder to (subscriber id to rule tag). -/
abbrev Rules := List (Str × List (Str × Nat))

inductive RouterT : Type where
  | node : Rules → List (Str × RouterT) → RouterT

def RouterT.rulesL : RouterT → Rules
  | .node rs _ => rs

def RouterT.childrenL : RouterT → List (Str × RouterT)
  | .node _ cs => cs

def emptyRouter : RouterT := .node [] []

/-- A `*Rule` handle: owning node (as the chain of child keys from the
root), node-local path, subscriber id, and allocation tag. -/
structure RRef where
  addr : List Str
  path : Str
  id : Str
  tag : Nat
  deriving DecidableEq, Repr

def starPat : Str := ['*']

def dstarPat : Str := ['*', '*']

/--
`Router.addSimpleRule` on one node: create the inner map if absent,
return the existing rule when the `(path, id)` entry is already present,
otherwise allocate a new rule and store it.  Returns the updated rule
table, the allocation counter, and the tag of the returned rule.
-/
def addSimpleRule (rules : Rules) (path id : Str) (ctr : Nat) : Rules × Nat × Nat :=
  match alookup rules path with
  | none => (rules ++ [(path, [(id, ctr)])], ctr + 1, ctr)
  | some inner =>
    match alookup inner id with
    | some tag => (rules, ctr, tag)
    | none => (aset rules path (inner ++ [(id, ctr)]), ctr + 1, ctr)

/--
`Router.add`.  A path whose first `*` sits at a positive position is a
wildcard rule: split it into `(pfx, part)`, obtain or create the child
node for `pfx` (`obtainSubRouter`), and on creation migrate the simple
rules whose key starts with `pfx` into the child with the prefix
stripped (`moveSimpleRulesMatching`), then call `removeRules(candidates)`
on the child — as the source does — which deletes the full keys from the
child (where only stripped keys live), leaving the originals in the
parent.  Finally the source calls `r2.add(part, id)`; since `part`
always starts with `*`, `strings.Index(part, "*")` is 0 there, so that
call always takes the `addSimpleRule` branch, inlined here.  Likewise
the migration calls `r2.add` on suffixes of simple-rule keys; simple
keys are star-free or star-leading (only such keys reach
`addSimpleRule`), and star-leading keys never match the star-free
non-empty `pfx`, so those calls also take the `addSimpleRule` branch,
inlined here.  Any other path is a simple rule.
-/
def addGo (t : RouterT) (path id : Str) (ctr : Nat) : RouterT × Nat × RRef :=
  match t with
  | .node rules children =>
    match splitStar path with
    | some (pfx, part) =>
      if pfx = [] then
        let r := addSimpleRule rules path id ctr
        (.node r.1 children, r.2.1, ⟨[], path, id, r.2.2⟩)
      else
        match alookup children pfx with
        | some (.node crules cch) =>
          let r := addSimpleRule crules part id ctr
          (.node rules (aset children pfx (.node r.1 cch)), r.2.1,
            ⟨[pfx], part, id, r.2.2⟩)
        | none =>
          let cands := rules.filter (fun pr => pfx.isPrefixOf pr.1)
          let migrated := cands.foldl
            (fun acc pr => pr.2.foldl
              (fun acc2 idtag =>
                let r3 := addSimpleRule acc2.1 (pr.1.drop pfx.length) idtag.1 acc2.2
                (r3.1, r3.2.1))
              acc)
            ([], ctr)
          let crules := cands.foldl (fun rs pr => aremove rs pr.1) migrated.1
          let r := addSimpleRule crules part id migrated.2
          (.node rules (children ++ [(pfx, .node r.1 [])]), r.2.1,
            ⟨[pfx], part, id, r.2.2⟩)
    | none =>
      let r := addSimpleRule rules path id ctr
      (.node r.1 children, r.2.1, ⟨[], path, id, r.2.2⟩)

/-- `Router.collectRules`: append the subscriber ids stored under `patt`. -/
def collectRules (ms : List Str) (rules : Rules) (patt : Str) : List Str :=
  match alookup rules patt with
  | none => ms
  | some inner => ms ++ inner.map (fun x => x.1)

mutual

/--
`Router.run`: collect ids from the exact entry for `path`, from the `*`
entry when `path` has no `/`, and from the `**` entry; if nothing
matched, try each child whose key is a prefix of `path` on the remaining
suffix, taking the first non-empty result.
-/
def runGo (t : RouterT) (path : Str) : List Str :=
  match t with
  | .node rules children =>
    let m := collectRules [] rules path
    let m := if '/' ∈ path then m else collectRules m rules starPat
    let m := collectRules m rules dstarPat
    if m.isEmpty then runChildren children path else m

def runChildren (cs : List (Str × RouterT)) (path : Str) : List Str :=
  match cs with
  | [] => []
  | (pfx, c) :: rest =>
    if pfx.isPrefixOf path then
      let res := runGo c (path.drop pfx.length)
      if res.isEmpty then runChildren rest path else res
    else runChildren rest path

end

/-- `Router.removeRule`: delete the id from the inner map under the rule
path; the (possibly now empty) inner map stays under its key. -/
def removeRuleN (rules : Rules) (path id : Str) : Rules :=
  match alookup rules path with
  | none => rules
  | some inner => aset rules path (aremove inner id)

/-- `Router.hasWildcardRules`: presence of the `*` or `**` KEY in the
rule table (even when its inner map has become empty). -/
def hasWildKeys (rules : Rules) : Bool :=
  (alookup rules starPat).isSome || (alookup rules dstarPat).isSome

/--
`Router.minify`, acting on the parent that owns the child under `key`
(the child prefix): when the child has no sub-routers and no `*`/`**`
key, re-add the remaining rule entries of the child to the parent via
the full `add`, then unlink the child (`removeSubRouter`).  Note the
source iterates `for _, rules := range r.rules` (discarding the path
key) and then `for path, rule := range rules`, whose keys are the
subscriber ids, so the string it re-adds is `r.prefix + id` — the inner
binder named `path` holds the id — and the added rule is keyed by
`rule.id`, the same id.
-/
def minifyChild (parent : RouterT) (key : Str) (ctr : Nat) : RouterT × Nat :=
  match alookup parent.childrenL key with
  | none => (parent, ctr)
  | some child =>
    if child.childrenL.isEmpty = false || hasWildKeys child.rulesL then (parent, ctr)
    else
      let merged := child.rulesL.foldl
        (fun acc pr => pr.2.foldl
          (fun acc2 idtag =>
            let r := addGo acc2.1 (key ++ idtag.1) idtag.1 acc2.2
            (r.1, r.2.1))
          acc)
        (parent, ctr)
      match merged.1 with
      | .node rs cs => (.node rs (aremove cs key), merged.2)

/-- Apply a counter-threaded update at the node addressed by a chain of
child keys (the model of following a `router` back-pointer). -/
def modifyAtC (t : RouterT) (addr : List Str) (f : RouterT → Nat → RouterT × Nat)
    (ctr : Nat) : RouterT × Nat :=
  match addr with
  | [] => f t ctr
  | k :: rest =>
    match t with
    | .node rules children =>
      match alookup children k with
      | none => (t, ctr)
      | some c =>
        let r := modifyAtC c rest f ctr
        (.node rules (aset children k r.1), r.2)

def splitLast {α : Type} : List α → Option (List α × α)
  | [] => none
  | [a] => some ([], a)
  | a :: b :: rest => (splitLast (b :: rest)).map (fun pr => (a :: pr.1, pr.2))

/--
`Rule.remove`: delete the rule from its owning node (`removeRule`), and
when its path starts with `*`, run `minify` on that node — which is a
no-op when the node is the root (nil parent).
-/
def removeGo (t : RouterT) (ref : RRef) (ctr : Nat) : RouterT × Nat :=
  let t1 := (modifyAtC t ref.addr
    (fun n c => match n with | .node rs cs => (.node (removeRuleN rs ref.path ref.id) cs, c))
    ctr).1
  if starPat.isPrefixOf ref.path then
    match splitLast ref.addr with
    | none => (t1, ctr)
    | some (paddr, key) => modifyAtC t1 paddr (fun p c => minifyChild p key c) ctr
  else (t1, ctr)

end Gocomet

/-! ## Session (session.go)

The session goroutine is a single-consumer actor: a `select` loop over
the upstream queue, attach requests, pushback returns, explicit close,
and the idle timer.  Each `select` arm runs atomically, so the loop is
embedded as a step function from a session state and one arm event to
the next state plus the visible channel actions of that arm.  A Go
channel value is a cid tag (allocation identity), the buffered contents
it was created with, and its closed flag; `close(output)` with
`output == nil` is the Go runtime panic `close of nil channel`,
embedded as the `.error` result. -/

namespace Gocomet

/-- Modelled from the spec: the event `Message` struct
`(channel: string, data: string)` is defined in a repository file not
included under `src/` (it is used by `server.go`, `session.go` and
`comet.go`); per the spec it is an immutable pair of strings. -/
structure Message where
  channel : Str
  data : Str
  deriving DecidableEq, Repr

/-- A Go `chan *Message` value: allocation tag, buffered contents at
creation, and whether it has been closed. -/
structure Chan where
  cid : Nat
  buf : List Message
  closed : Bool
  deriving DecidableEq, Repr

/-- The shared pre-closed empty channel `closedChannel`. -/
def closedChannel : Chan := ⟨0, [], true⟩

-- The unsent messages are kept temporarily in a mailbox. But only
-- last MAILBOX_SIZE messages are kept.
def MAILBOX_SIZE : Nat := 1000

/-- The local state of the session goroutine: `mailbox` (FIFO, front
first), the attached downstream channel `output` (or `none`), the loop
flag `isRunning`, and the channel-allocation counter (cid 0 is reserved
for `closedChannel`). -/
structure SessState where
  mailbox : List Message
  output : Option Chan
  isRunning : Bool
  fresh : Nat
  deriving DecidableEq, Repr

def initSession : SessState := ⟨[], none, true, 1⟩

/-- One arm of the session `select`. -/
inductive SEvent where
  | input (m : Message)
  | req (isConnect : Bool)
  | fail (m : Option Message)
  | close
  | timeout
  deriving DecidableEq, Repr

/-- Visible channel effects of one `select` arm. -/
inductive Act where
  | send (c : Chan) (m : Message)
  | respond (c : Chan)
  | closeCh (c : Chan)
  | cleanup
  deriving DecidableEq, Repr

/--
One iteration of the `select` loop in `newSession` (session.go).  After
the loop has exited (`isRunning = false`) no arm runs any more, so the
step is the identity.

* `input`: with no downstream channel, append to the mailbox and drop
  the front when it exceeds `MAILBOX_SIZE`; otherwise forward to the
  attached channel.
* `req` (`obtainChannel`): with no active channel,
  `convertMailboxToChannel` moves the mailbox into a fresh buffered
  channel and empties the mailbox; a connect keeps it open as the new
  output, a non-connect closes it before responding.  With an active
  channel the shared `closedChannel` is returned.
* `fail` (`channelTimeout`): a non-nil pushback is pushed to the front
  of the mailbox, then `close(output)` — a panic when no channel is
  attached — and the output is detached.
* `close` (`channelClose`): stop the loop, close any attached channel,
  respond with the closed flush channel holding the mailbox contents,
  then run the cleanup hook.
* `timeout` (idle timer): stop the loop and `close(output)` without a
  nil guard — a panic when no channel is attached; on the non-panic
  path the cleanup hook runs.
-/
def stepS (s : SessState) (e : SEvent) : Except String (SessState × List Act) :=
  if s.isRunning = false then .ok (s, []) else
  match e with
  | .input m =>
    match s.output with
    | none =>
      let mb := s.mailbox ++ [m]
      let mb := if MAILBOX_SIZE < mb.length then mb.tail else mb
      .ok ({ s with mailbox := mb }, [])
    | some ch => .ok (s, [.send ch m])
  | .req isConnect =>
    match s.output with
    | none =>
      let ch : Chan := ⟨s.fresh, s.mailbox, false⟩
      if isConnect then
        .ok ({ s with mailbox := [], output := some ch, fresh := s.fresh + 1 }, [.respond ch])
      else
        .ok ({ s with mailbox := [], fresh := s.fresh + 1 },
          [.respond { ch with closed := true }])
    | some _ => .ok (s, [.respond closedChannel])
  | .fail mo =>
    let mb := match mo with | some m => m :: s.mailbox | none => s.mailbox
    match s.output with
    | none => .error "close of nil channel"
    | some ch => .ok ({ s with mailbox := mb, output := none }, [.closeCh ch])
  | .close =>
    let acts := match s.output with | some ch => [Act.closeCh ch] | none => []
    .ok ({ s with mailbox := [], output := none, isRunning := false, fresh := s.fresh + 1 },
      acts ++ [.respond ⟨s.fresh, s.mailbox, true⟩, .cleanup])
  | .timeout =>
    match s.output with
    | none => .error "close of nil channel"
    | some ch => .ok ({ s with output := none, isRunning := false }, [.closeCh ch, .cleanup])

/-- States of the session actor reachable from its start state. -/
inductive Reach : SessState → Prop where
  | init : Reach initSession
  | next {s s' : SessState} {e : SEvent} {as : List Act} :
      Reach s → stepS s e = .ok (s', as) → Reach s'

end Gocomet

/-! ## UniqueStringPool (session.go) -/

namespace Gocomet

-- Maximum number of retry to avoid conflict
def MAX_ID_GEN_RETRY : Nat := 100

-- Maximum time to keep IDs from being auto-released (30 minutes, in
-- nanoseconds as a Go time.Duration)
def MAX_ID_KEPT_TIME : Int := 1800000000000

/-- A `timeAndValue` list element: allocation tag of the `*list.Element`,
the stored string, and its expiry instant. -/
structure TimeAndValue where
  eid : Nat
  value : Str
  expire : Int
  deriving DecidableEq, Repr

/-- `UniqueStringPool`: `values` is the map from string to its list
element, `order` the insertion-ordered list, `next` the element
allocation counter. -/
structure UniqueStringPool where
  next : Nat
  values : List (Str × Nat)
  order : List TimeAndValue
  deriving DecidableEq, Repr

def emptyPool : UniqueStringPool := ⟨0, [], []⟩

/--
The retry loop of `UniqueStringPool.get`: while `limit > 0`, draw the
next value from the generator and stop on a value not present in the
`values` map, else decrement `limit`.  The caller-supplied generator is
modelled as the stream of its successive return values; `k` is the
index of the next call.  Returns the final `value`, the remaining
`limit`, and the total number of generator calls made.
-/
def getLoop (vals : List (Str × Nat)) (gen : Nat → Str) :
    Nat → Nat → Str → Str × Nat × Nat
  | 0, k, value => (value, 0, k)
  | limit + 1, k, _ =>
    let v := gen k
    if (alookup vals v).isSome then getLoop vals gen limit (k + 1) v
    else (v, limit + 1, k + 1)

/--
The head sweep of `get`: `for e := pool.order.Front(); e != nil; e = e.Next()`
removes the front element when it has expired — and then stops, because
`list.Remove` clears the links of the removed element, making `e.Next()`
return nil.  So at most the front element is removed per call.
-/
def sweepFront (order : List TimeAndValue) (now : Int) : List TimeAndValue :=
  match order with
  | [] => []
  | e :: rest => if now < e.expire then e :: rest else rest

structure GetResult where
  pool : UniqueStringPool
  value : Str
  err : Bool
  calls : Nat

/--
`UniqueStringPool.get`: run the retry loop (error iff the budget is
exhausted), then — error or not — register the value in the map, push
`(value, now + MAX_ID_KEPT_TIME)` at the back of the order list, and
sweep the front.
-/
def poolGet (p : UniqueStringPool) (gen : Nat → Str) (now : Int) : GetResult :=
  let r := getLoop p.values gen MAX_ID_GEN_RETRY 0 []
  let err := r.2.1 = 0
  let order1 := p.order ++ [⟨p.next, r.1, now + MAX_ID_KEPT_TIME⟩]
  ⟨⟨p.next + 1, aset p.values r.1 p.next, sweepFront order1 now⟩, r.1, err, r.2.2⟩

/--
`UniqueStringPool.touch`: when the value is present, remove its current
list element, push a fresh element with a new expiry at the back, and
re-point the map at it.
-/
def poolTouch (p : UniqueStringPool) (value : Str) (now : Int) :
    UniqueStringPool × Bool :=
  match alookup p.values value with
  | none => (p, false)
  | some eid =>
    let order1 := (p.order.filter (fun e => e.eid ≠ eid)) ++
      [⟨p.next, value, now + MAX_ID_KEPT_TIME⟩]
    (⟨p.next + 1, aset p.values value p.next, order1⟩, true)

end Gocomet

/-! ## Server (server.go) and Broker (the Router-facing part) -/

namespace Gocomet

/-- Broker state: registered client ids, the shared router with its rule
allocation counter, and the per-client map of channel to rule handle. -/
structure Broker where
  clients : List Str
  router : RouterT
  rctr : Nat
  rules : List (Str × List (Str × RRef))

def emptyBroker : Broker := ⟨[], emptyRouter, 0, []⟩

/-- `Broker.subscribe`: a no-op for an unknown client; otherwise install
`router.add(channel, clientId)` and record the returned handle. -/
def brokerSubscribe (b : Broker) (clientId channel : Str) : Broker :=
  if clientId ∈ b.clients then
    let r := addGo b.router channel clientId b.rctr
    { b with
      router := r.1
      rctr := r.2.1
      rules := aset b.rules clientId
        (aset ((alookup b.rules clientId).getD []) channel r.2.2) }
  else b

/-- Server state: the identity pool, the ids that own a live session
(the session actors themselves are modelled by `stepS`), and the
broker. -/
structure ServerS where
  names : UniqueStringPool
  sessions : List Str
  broker : Broker

def emptyServer : ServerS := ⟨emptyPool, [], emptyBroker⟩

/--
`Server.subscribe`:

    if strings.Contains(subscription, ",") { panic("not supported yet") }

before anything else; then touch the identity pool (unknown client:
`ok = false`), install the broker subscription, and look up the session
(whose noop attach is the `req false` arm of `stepS`).  The returned
Bool is the `ok` result; the panic is the `.error` outcome.
-/
def serverSubscribe (sv : ServerS) (clientId subscription : Str) (now : Int) :
    Except String (ServerS × Bool) :=
  if ',' ∈ subscription then .error "not supported yet"
  else
    let t := poolTouch sv.names clientId now
    if t.2 = false then .ok ({ sv with names := t.1 }, false)
    else
      let broker1 := brokerSubscribe sv.broker clientId subscription
      .ok ({ sv with names := t.1, broker := broker1 }, clientId ∈ sv.sessions)

end Gocomet

/-! ## Fixtures used by concrete theorems -/

namespace Gocomet

def lookupSimple (rules : Rules) (p id : Str) : Option Nat :=
  (alookup rules p).bind (fun inner => alookup inner id)

/--
Where `Router.add(path, id)` looks for an already-present rule: the
local rule table for a non-wildcard path, and the table of the child
node addressed by the split prefix for a wildcard path.  Returns the
handle of the resident rule, if any.
-/
def present (t : RouterT) (path id : Str) : Option RRef :=
  match t with
  | .node rules children =>
    match splitStar path with
    | some (pfx, part) =>
      if pfx = [] then
        (lookupSimple rules path id).map (fun tag => ⟨[], path, id, tag⟩)
      else
        match alookup children pfx with
        | some c => (lookupSimple c.rulesL part id).map (fun tag => ⟨[pfx], part, id, tag⟩)
        | none => none
    | none => (lookupSimple rules path id).map (fun tag => ⟨[], path, id, tag⟩)

def cid1 : Str := str "c1"

def cid2 : Str := str "c2"

/-- Router holding the single subscription `add("/foo/*", "c1")`. -/
def rFooStar : RouterT := (addGo emptyRouter (str "/foo/*") cid1 0).1

/-- Router holding the single subscription `add("/foo/**", "c1")`. -/
def rFooDstar : RouterT := (addGo emptyRouter (str "/foo/**") cid1 0).1

/-- Router for the C6 witness: holds `add("/a/*", "c1")`. -/
def rC6 : RouterT := (addGo emptyRouter (str "/a/*") cid1 0).1

/-- C7 scenario, step 1: `add("/foo/bar", "c2")` on an empty router. -/
def c7add1 : RouterT × Nat × RRef := addGo emptyRouter (str "/foo/bar") cid2 0

/-- C7 scenario, step 2: `add("/foo/*", "c1")`, which creates the child
node `"/foo/"` and migrates the `bar` rule into it. -/
def c7add2 : RouterT × Nat × RRef := addGo c7add1.1 (str "/foo/*") cid1 c7add1.2.1

/-- C7 scenario, step 3: `remove()` on the handle of the `"/foo/*"`
rule. -/
def c7removed : RouterT := (removeGo c7add2.1 c7add2.2.2 c7add2.2.1).1

/-- C9 counterexample pool: one live id `"a"` (expiry 100), registered
in the values map. -/
def c9pool : UniqueStringPool := ⟨1, [(str "a", 0)], [⟨0, str "a", 100⟩]⟩

/-- A generator that always proposes `"a"`. -/
def genA : Nat → Str := fun _ => str "a"

/-- C9 counterexample: `get` at time 50 on `c9pool` with `genA`. -/
def c9res : GetResult := poolGet c9pool genA 50

def msgA : Message := ⟨str "/x", str "1"⟩

/-- A session state whose mailbox is full (`MAILBOX_SIZE` events), no
poller attached. -/
def sFull : SessState := ⟨List.replicate MAILBOX_SIZE msgA, none, true, 1⟩

/-- An open connect poller channel. -/
def chA : Chan := ⟨1, [], false⟩

/-- A session state with a connect poller attached. -/
def sAttach : SessState := ⟨[], some chA, true, 2⟩

end Gocomet

/-! ## Theorems -/

namespace Gocomet

theorem splitStar_append {path pfx part : Str} (h : splitStar path = some (pfx, part)) :
    path = pfx ++ part := by
  induction path generalizing pfx part with
  | nil => simp [splitStar] at h
  | cons c cs ih =>
    by_cases hc : c = '*'
    · rw [splitStar, if_pos hc] at h
      obtain ⟨h1, h2⟩ := Prod.mk.injEq .. ▸ Option.some.inj h
      rw [← h1, ← h2, hc]
      rfl
    · rw [splitStar, if_neg hc] at h
      cases hsp : splitStar cs with
      | none => rw [hsp] at h; simp at h
      | some pr =>
        rw [hsp] at h
        obtain ⟨h1, h2⟩ := Prod.mk.injEq .. ▸ Option.some.inj h
        rw [← h1, ← h2]
        have hcs : splitStar cs = some (pr.1, pr.2) := by rw [hsp]
        simpa using ih hcs

theorem splitStar_part {path pfx part : Str} (h : splitStar path = some (pfx, part)) :
    splitStar part = some ([], part) := by
  induction path generalizing pfx part with
  | nil => simp [splitStar] at h
  | cons c cs ih =>
    by_cases hc : c = '*'
    · rw [splitStar, if_pos hc] at h
      obtain ⟨h1, h2⟩ := Prod.mk.injEq .. ▸ Option.some.inj h
      rw [← h2, splitStar]
      simp
    · rw [splitStar, if_neg hc] at h
      cases hsp : splitStar cs with
      | none => rw [hsp] at h; simp at h
      | some pr =>
        rw [hsp] at h
        obtain ⟨h1, h2⟩ := Prod.mk.injEq .. ▸ Option.some.inj h
        have hcs : splitStar cs = some (pr.1, pr.2) := by rw [hsp]
        exact h2 ▸ ih hcs

theorem splitStar_length {path pfx part : Str} (h : splitStar path = some (pfx, part))
    (hp : pfx ≠ []) : part.length < path.length := by
  have hap := splitStar_append h
  subst hap
  cases pfx with
  | nil => exact absurd rfl hp
  | cons a l => simp; omega

theorem aset_self {α β : Type} [DecidableEq α] {l : List (α × β)} {k : α} {v : β}
    (h : alookup l k = some v) : aset l k v = l := by
  induction l with
  | nil => simp [alookup] at h
  | cons kv rest ih =>
    obtain ⟨k', v'⟩ := kv
    by_cases hk : k = k'
    · rw [alookup, if_pos hk] at h
      rw [aset, if_pos hk, Option.some.inj h]
    · rw [alookup, if_neg hk] at h
      rw [aset, if_neg hk, ih h]

theorem addSimpleRule_present {rules : Rules} {p id : Str} {inner : List (Str × Nat)}
    {tag ctr : Nat} (h1 : alookup rules p = some inner) (h2 : alookup inner id = some tag) :
    addSimpleRule rules p id ctr = (rules, ctr, tag) := by
  simp only [addSimpleRule, h1, h2]

theorem isPrefixOf_append_self (l r : Str) : l.isPrefixOf (l ++ r) = true :=
  List.isPrefixOf_iff_prefix.mpr (List.prefix_append l r)

end Gocomet

namespace Gocomet

/--
C1: with the subscriptions added to the Router, `run` obeys the wildcard
matching semantics: after `add("/foo/*", "c1")` a path `/foo/<rest>`
matches exactly when `rest` contains no `/` (the empty `rest` included);
after `add("/foo/**", "c1")` every `rest` matches; in particular
`resolve("/foo/bar")` and `resolve("/foo/")` both return `{"c1"}` and
`resolve("/foo/bar/")` returns the empty set.
-/
theorem c1_wildcard_matching :
    (∀ rest : Str, cid1 ∈ runGo rFooStar (str "/foo/" ++ rest) ↔ '/' ∉ rest) ∧
    (∀ rest : Str, cid1 ∈ runGo rFooDstar (str "/foo/" ++ rest)) ∧
    runGo rFooStar (str "/foo/bar") = [cid1] ∧
    runGo rFooStar (str "/foo/") = [cid1] ∧
    runGo rFooStar (str "/foo/bar/") = [] := by
  refine ⟨?_, ?_, ?_, ?_, ?_⟩
  · intro rest
    have hshape : rFooStar = .node [] [(str "/foo/", .node [(starPat, [(cid1, 0)])] [])] := rfl
    rw [hshape]
    rw [runGo]
    simp only [collectRules, alookup, ite_self, List.isEmpty_nil, if_pos]
    rw [runChildren]
    rw [if_pos (isPrefixOf_append_self (str "/foo/") rest), List.drop_left]
    rw [runGo]
    by_cases hr : rest = starPat
    · subst hr
      decide
    · by_cases hs : '/' ∈ rest
      · simp [collectRules, alookup, hr, hs, runChildren]
        decide
      · simp [collectRules, alookup, hr, hs, runChildren]
        decide
  · intro rest
    have hshape : rFooDstar = .node [] [(str "/foo/", .node [(dstarPat, [(cid1, 0)])] [])] := rfl
    rw [hshape]
    rw [runGo]
    simp only [collectRules, alookup, ite_self, List.isEmpty_nil, if_pos]
    rw [runChildren]
    rw [if_pos (isPrefixOf_append_self (str "/foo/") rest), List.drop_left]
    rw [runGo]
    by_cases hr : rest = dstarPat
    · subst hr
      decide
    · by_cases hs : '/' ∈ rest
      · simp [collectRules, alookup, hr, hs, runChildren]
      · simp [collectRules, alookup, hr, hs, runChildren]
  · simp [rFooStar, runGo, runChildren, collectRules, alookup, addGo, addSimpleRule,
      splitStar, str, emptyRouter, starPat, dstarPat, aset, cid1]
  · simp [rFooStar, runGo, runChildren, collectRules, alookup, addGo, addSimpleRule,
      splitStar, str, emptyRouter, starPat, dstarPat, aset, cid1]
  · simp [rFooStar, runGo, runChildren, collectRules, alookup, addGo, addSimpleRule,
      splitStar, str, emptyRouter, starPat, dstarPat, aset, cid1]

end Gocomet

namespace Gocomet

/--
C6: calling `Router.add(p, id)` when the `(p, id)` rule is already
present (resident where the descent of `add` looks for it) returns the
existing rule handle rather than creating a new one, leaves the router
unchanged, and hence `resolve` results on every path are unchanged by
the second `add`.
-/
theorem c6_add_idempotent (t : RouterT) (path id : Str) (ctr : Nat) (ref : RRef)
    (h : present t path id = some ref) :
    addGo t path id ctr = (t, ctr, ref) ∧
    ∀ q, runGo (addGo t path id ctr).1 q = runGo t q := by
  obtain ⟨rules, children⟩ := t
  have hmain : addGo (.node rules children) path id ctr = (.node rules children, ctr, ref) := by
    cases hsp : splitStar path with
    | none =>
      simp only [present, hsp] at h
      simp only [addGo, hsp]
      simp only [Option.map_eq_some'] at h
      obtain ⟨tag, hts, href⟩ := h
      rw [lookupSimple, Option.bind_eq_some] at hts
      obtain ⟨inner, hi1, hi2⟩ := hts
      simp only [addSimpleRule_present hi1 hi2]
      rw [← href]
    | some pr =>
      obtain ⟨pfx, part⟩ := pr
      simp only [present, hsp] at h
      simp only [addGo, hsp]
      by_cases hpfx : pfx = []
      · rw [if_pos hpfx] at h
        rw [if_pos hpfx]
        simp only [Option.map_eq_some'] at h
        obtain ⟨tag, hts, href⟩ := h
        rw [lookupSimple, Option.bind_eq_some] at hts
        obtain ⟨inner, hi1, hi2⟩ := hts
        simp only [addSimpleRule_present hi1 hi2]
        rw [← href]
      · rw [if_neg hpfx] at h
        rw [if_neg hpfx]
        cases hc : alookup children pfx with
        | none =>
          rw [hc] at h
          simp at h
        | some c =>
          rw [hc] at h
          obtain ⟨crules, cch⟩ := c
          dsimp only at h ⊢
          simp only [Option.map_eq_some'] at h
          obtain ⟨tag, hts, href⟩ := h
          rw [RouterT.rulesL, lookupSimple, Option.bind_eq_some] at hts
          obtain ⟨inner, hi1, hi2⟩ := hts
          simp only [addSimpleRule_present hi1 hi2]
          rw [aset_self hc, ← href]
  exact ⟨hmain, fun q => by rw [hmain]⟩

/--
C6 witness: on the router holding `add("/a/*", "c1")`, a second
`add("/a/*", "c1")` finds the resident rule, returns its handle, and
leaves the router — and a concrete `resolve` — unchanged.
-/
theorem c6_witness :
    present rC6 (str "/a/*") cid1 = some ⟨[str "/a/"], str "*", cid1, 0⟩ ∧
    addGo rC6 (str "/a/*") cid1 1 = (rC6, 1, ⟨[str "/a/"], str "*", cid1, 0⟩) ∧
    runGo (addGo rC6 (str "/a/*") cid1 1).1 (str "/a/b") = runGo rC6 (str "/a/b") := by
  have h : present rC6 (str "/a/*") cid1 = some ⟨[str "/a/"], str "*", cid1, 0⟩ := by decide
  exact ⟨h, (c6_add_idempotent rC6 (str "/a/*") cid1 1 _ h).1,
    (c6_add_idempotent rC6 (str "/a/*") cid1 1 _ h).2 (str "/a/b")⟩

/--
C7: the claimed merge does not happen.  After `add("/foo/bar", "c2")`
and `add("/foo/*", "c1")`, removing the `"/foo/*"` rule leaves its node
with no children and no remaining wildcard rule (the `"*"` key maps to
an empty inner table), yet the node is still linked under the parent:
`minify` aborts because `hasWildcardRules` tests key presence, and
`removeRule` leaves the emptied `"*"` key behind.
-/
theorem c7_no_merge_eval :
    c7add2.2.2 = ⟨[str "/foo/"], starPat, cid1, 2⟩ ∧
    (alookup c7removed.childrenL (str "/foo/")).map RouterT.rulesL
      = some [(str "bar", [(cid2, 1)]), (starPat, [])] ∧
    (alookup c7removed.childrenL (str "/foo/")).map (fun c => c.childrenL.isEmpty)
      = some true := by
  decide

end Gocomet

namespace Gocomet

/-- Strengthened induction invariant of the session actor: the mailbox
never exceeds `MAILBOX_SIZE`, and while a poller channel is attached the
mailbox is empty (its contents were moved into the channel on attach). -/
theorem reach_inv (s : SessState) (h : Reach s) :
    s.mailbox.length ≤ MAILBOX_SIZE ∧ (∀ ch, s.output = some ch → s.mailbox = []) := by
  induction h with
  | init => exact ⟨by simp [initSession, MAILBOX_SIZE], fun ch hc => by simp [initSession] at hc⟩
  | next hr hstep ih =>
    rename_i s1 s2 e acts
    rw [stepS.eq_def] at hstep
    by_cases hrun : s1.isRunning = false
    · rw [if_pos hrun] at hstep
      obtain ⟨h1, h2⟩ := Prod.mk.injEq .. ▸ Except.ok.inj hstep
      exact h1 ▸ ih
    · rw [if_neg hrun] at hstep
      cases e with
      | input m =>
        cases ho : s1.output with
        | none =>
          rw [ho] at hstep
          dsimp only at hstep
          obtain ⟨h1, h2⟩ := Prod.mk.injEq .. ▸ Except.ok.inj hstep
          subst h1
          refine ⟨?_, fun ch hc => by simp [ho] at hc⟩
          by_cases hlen : MAILBOX_SIZE < (s1.mailbox ++ [m]).length
          · simp only [if_pos hlen]
            simp at hlen ⊢
            omega
          · simp only [if_neg hlen]
            simp at hlen ⊢
            omega
        | some ch =>
          rw [ho] at hstep
          dsimp only at hstep
          obtain ⟨h1, h2⟩ := Prod.mk.injEq .. ▸ Except.ok.inj hstep
          exact h1 ▸ ih
      | req b =>
        cases ho : s1.output with
        | none =>
          rw [ho] at hstep
          dsimp only at hstep
          by_cases hb : b = true
          · rw [if_pos hb] at hstep
            obtain ⟨h1, h2⟩ := Prod.mk.injEq .. ▸ Except.ok.inj hstep
            subst h1
            exact ⟨by simp [MAILBOX_SIZE], fun ch hc => rfl⟩
          · rw [if_neg hb] at hstep
            obtain ⟨h1, h2⟩ := Prod.mk.injEq .. ▸ Except.ok.inj hstep
            subst h1
            exact ⟨by simp [MAILBOX_SIZE], fun ch hc => rfl⟩
        | some ch =>
          rw [ho] at hstep
          dsimp only at hstep
          obtain ⟨h1, h2⟩ := Prod.mk.injEq .. ▸ Except.ok.inj hstep
          exact h1 ▸ ih
      | fail mo =>
        cases ho : s1.output with
        | none =>
          rw [ho] at hstep
          simp at hstep
        | some ch =>
          rw [ho] at hstep
          dsimp only at hstep
          obtain ⟨h1, h2⟩ := Prod.mk.injEq .. ▸ Except.ok.inj hstep
          subst h1
          have hmb := ih.2 ch ho
          refine ⟨?_, fun ch2 hc => by simp at hc⟩
          cases mo with
          | some m => simp [hmb, MAILBOX_SIZE]
          | none => simp [hmb, MAILBOX_SIZE]
      | close =>
        obtain ⟨h1, h2⟩ := Prod.mk.injEq .. ▸ Except.ok.inj hstep
        subst h1
        exact ⟨by simp [MAILBOX_SIZE], fun ch hc => rfl⟩
      | timeout =>
        cases ho : s1.output with
        | none =>
          rw [ho] at hstep
          simp at hstep
        | some ch =>
          rw [ho] at hstep
          dsimp only at hstep
          obtain ⟨h1, h2⟩ := Prod.mk.injEq .. ▸ Except.ok.inj hstep
          subst h1
          exact ⟨ih.1, fun ch2 hc => by simp at hc⟩

/--
C2: in every reachable session state the mailbox holds at most
`MAILBOX_SIZE` (1000) events, and when an upstream event arrives with no
poller attached and the mailbox already full, the oldest (front) entry
is dropped and the new event appended at the back, preserving the order
of the survivors (`tail ++ [m]`).
-/
theorem c2_mailbox_bounded :
    (∀ s, Reach s → s.mailbox.length ≤ MAILBOX_SIZE) ∧
    (∀ (s : SessState) (m : Message), s.isRunning = true → s.output = none →
      s.mailbox.length = MAILBOX_SIZE →
      stepS s (.input m) = .ok ({ s with mailbox := s.mailbox.tail ++ [m] }, [])) := by
  constructor
  · exact fun s h => (reach_inv s h).1
  · intro s m hrun ho hlen
    rw [stepS.eq_def, hrun, ho]
    dsimp only
    have hgt : MAILBOX_SIZE < (s.mailbox ++ [m]).length := by simp [hlen]
    rw [if_pos hgt]
    cases hmb : s.mailbox with
    | nil => rw [hmb] at hlen; simp [MAILBOX_SIZE] at hlen
    | cons a l => simp

/-- C2 witness: the start state is within the bound, and one step from a
full mailbox drops the front and appends the new event. -/
theorem c2_witness :
    initSession.mailbox.length ≤ MAILBOX_SIZE ∧
    sFull.mailbox.length = MAILBOX_SIZE ∧
    stepS sFull (.input msgA) = .ok ({ sFull with mailbox := sFull.mailbox.tail ++ [msgA] }, []) :=
  ⟨c2_mailbox_bounded.1 initSession Reach.init, by simp [sFull],
    c2_mailbox_bounded.2 sFull msgA rfl rfl (by simp [sFull])⟩

/--
C3: while a connect poller is attached (`output = some ch`), any further
attach request — connect or noop — returns the shared pre-closed empty
channel `closedChannel`, the session state is unchanged (so the original
channel stays attached and at most one poller is attached), and an
upstream event is still delivered to the original channel `ch`.
-/
theorem c3_single_active_poller (s : SessState) (ch : Chan) (b : Bool) (m : Message)
    (hrun : s.isRunning = true) (ho : s.output = some ch) :
    stepS s (.req b) = .ok (s, [.respond closedChannel]) ∧
    closedChannel.buf = [] ∧ closedChannel.closed = true ∧
    stepS s (.input m) = .ok (s, [.send ch m]) := by
  refine ⟨?_, rfl, rfl, ?_⟩
  · simp [stepS.eq_def, hrun, ho]
  · simp [stepS.eq_def, hrun, ho]

/-- C3 witness at a session with an attached connect channel. -/
theorem c3_witness :
    stepS sAttach (.req false) = .ok (sAttach, [.respond closedChannel]) ∧
    closedChannel.buf = [] ∧ closedChannel.closed = true ∧
    stepS sAttach (.input msgA) = .ok (sAttach, [.send chA msgA]) :=
  c3_single_active_poller sAttach chA false msgA rfl rfl

/--
C4: `Session.close()` stops the loop, closes any attached poller
channel, and responds with a one-shot channel that holds exactly the
mailbox contents in FIFO order and is already closed — in particular,
with an empty mailbox the returned channel is a closed empty channel —
after which the cleanup hook runs.
-/
theorem c4_close_flush (s : SessState) (hrun : s.isRunning = true) :
    stepS s .close = .ok
      ({ s with mailbox := [], output := none, isRunning := false, fresh := s.fresh + 1 },
        (match s.output with | some ch => [Act.closeCh ch] | none => []) ++
          [Act.respond ⟨s.fresh, s.mailbox, true⟩, Act.cleanup]) := by
  cases ho : s.output with
  | none => simp [stepS.eq_def, hrun, ho]
  | some ch => simp [stepS.eq_def, hrun, ho]

/-- C4 witness: closing with a full mailbox flushes it in order; closing
the fresh (empty-mailbox) session responds a closed empty channel. -/
theorem c4_witness :
    stepS sFull .close = .ok
      ({ sFull with mailbox := [], output := none, isRunning := false, fresh := sFull.fresh + 1 },
        [Act.respond ⟨sFull.fresh, sFull.mailbox, true⟩, Act.cleanup]) ∧
    stepS initSession .close = .ok
      ({ initSession with
          mailbox := []
          output := none
          isRunning := false
          fresh := initSession.fresh + 1 },
        [Act.respond ⟨initSession.fresh, [], true⟩, Act.cleanup]) :=
  ⟨c4_close_flush sFull rfl, c4_close_flush initSession rfl⟩

/--
C5: the code contradicts the claim.  When the idle timer fires in a
state with no attached poller channel, the arm executes `close(output)`
with `output == nil`, the Go runtime panic `close of nil channel`, and
the cleanup hook is never invoked; the transition only completes from a
state with an attached channel.
-/
theorem c5_idle_timeout_panics (s : SessState) :
    (s.isRunning = true → s.output = none →
      stepS s .timeout = .error "close of nil channel") ∧
    (∀ ch, s.isRunning = true → s.output = some ch →
      stepS s .timeout = .ok ({ s with output := none, isRunning := false },
        [.closeCh ch, .cleanup])) := by
  constructor
  · intro hrun ho
    simp [stepS.eq_def, hrun, ho]
  · intro ch hrun ho
    simp [stepS.eq_def, hrun, ho]

/-- C5 witness: a freshly created session (no poller ever attached)
panics when the idle deadline elapses; an attached session does not. -/
theorem c5_witness :
    stepS initSession .timeout = .error "close of nil channel" ∧
    stepS sAttach .timeout = .ok ({ sAttach with output := none, isRunning := false },
      [.closeCh chA, .cleanup]) :=
  ⟨(c5_idle_timeout_panics initSession).1 rfl rfl,
    (c5_idle_timeout_panics sAttach).2 chA rfl rfl⟩

/--
C8: `fail` (release with pushback) with a non-nil event `m` pushes `m`
to the front of the mailbox and closes the attached poller channel; the
next attach then receives a channel whose buffered contents start with
`m`, so `m` is the first event observed by the next poller.
-/
theorem c8_pushback_front (s : SessState) (ch : Chan) (m : Message) (b : Bool)
    (hrun : s.isRunning = true) (ho : s.output = some ch) :
    stepS s (.fail (some m)) =
      .ok ({ s with mailbox := m :: s.mailbox, output := none }, [.closeCh ch]) ∧
    stepS { s with mailbox := m :: s.mailbox, output := none } (.req b) =
      .ok ((if b then
              { s with
                mailbox := []
                output := some ⟨s.fresh, m :: s.mailbox, false⟩
                fresh := s.fresh + 1 }
            else { s with mailbox := [], output := none, fresh := s.fresh + 1 }),
        [.respond ⟨s.fresh, m :: s.mailbox, !b⟩]) ∧
    (m :: s.mailbox).head? = some m := by
  refine ⟨?_, ?_, rfl⟩
  · simp [stepS.eq_def, hrun, ho]
  · cases b with
    | true => simp [stepS.eq_def, hrun]
    | false => simp [stepS.eq_def, hrun]

/-- C8 witness: pushback of a concrete event on an attached session, and
the next connect attach observing it first. -/
theorem c8_witness :
    stepS sAttach (.fail (some msgA)) =
      .ok ({ sAttach with mailbox := [msgA], output := none }, [.closeCh chA]) ∧
    stepS { sAttach with mailbox := [msgA], output := none } (.req true) =
      .ok ({ sAttach with
          mailbox := []
          output := some ⟨sAttach.fresh, [msgA], false⟩
          fresh := sAttach.fresh + 1 }, [.respond ⟨sAttach.fresh, [msgA], false⟩]) ∧
    ([msgA] : List Message).head? = some msgA := by
  have h := c8_pushback_front sAttach chA msgA true rfl rfl
  exact ⟨h.1, by simpa using h.2.1, rfl⟩

end Gocomet

namespace Gocomet

theorem getLoop_calls (vals : List (Str × Nat)) (gen : Nat → Str) :
    ∀ (limit k : Nat) (v : Str), (getLoop vals gen limit k v).2.2 ≤ k + limit := by
  intro limit
  induction limit with
  | zero => intro k v; simp [getLoop]
  | succ l ih =>
    intro k v
    rw [getLoop]
    by_cases hm : (alookup vals (gen k)).isSome
    · rw [if_pos hm]
      have := ih (k + 1) (gen k)
      omega
    · rw [if_neg hm]
      simp

theorem getLoop_err (vals : List (Str × Nat)) (gen : Nat → Str) :
    ∀ (limit k : Nat) (v : Str),
      ((getLoop vals gen limit k v).2.1 = 0 ↔
        ∀ i, k ≤ i → i < k + limit → (alookup vals (gen i)).isSome = true) := by
  intro limit
  induction limit with
  | zero =>
    intro k v
    simp [getLoop]
    intro i h1 h2
    omega
  | succ l ih =>
    intro k v
    rw [getLoop]
    by_cases hm : (alookup vals (gen k)).isSome
    · rw [if_pos hm]
      rw [ih (k + 1) (gen k)]
      constructor
      · intro h i h1 h2
        by_cases hik : i = k
        · exact hik ▸ hm
        · exact h i (by omega) (by omega)
      · intro h i h1 h2
        exact h i (by omega) (by omega)
    · rw [if_neg hm]
      constructor
      · intro h
        simp at h
      · intro hall
        exact absurd (hall k (Nat.le_refl k) (by omega)) hm
  
theorem getLoop_success (vals : List (Str × Nat)) (gen : Nat → Str) :
    ∀ (limit k : Nat) (v : Str), (getLoop vals gen limit k v).2.1 ≠ 0 →
      alookup vals (getLoop vals gen limit k v).1 = none := by
  intro limit
  induction limit with
  | zero => intro k v h; simp [getLoop] at h
  | succ l ih =>
    intro k v h
    rw [getLoop] at h ⊢
    by_cases hm : (alookup vals (gen k)).isSome
    · rw [if_pos hm] at h ⊢
      exact ih (k + 1) (gen k) h
    · rw [if_neg hm] at h ⊢
      exact Option.not_isSome_iff_eq_none.mp hm

theorem sweepFront_cases (l : List TimeAndValue) (now : Int) :
    sweepFront l now = l ∨ sweepFront l now = l.tail := by
  cases l with
  | nil => left; rfl
  | cons e rest =>
    rw [sweepFront]
    by_cases h : now < e.expire
    · left; rw [if_pos h]
    · right
      rw [if_neg h]
      rfl

end Gocomet

namespace Gocomet

/--
C9 (amended): `UniqueStringPool.get` calls the generator at most
`MAX_ID_GEN_RETRY` (100) times; it returns an error exactly when all 100
proposals collided with ids present in the pool; on success the returned
id is absent from the pool and is inserted with expiry
`now + MAX_ID_KEPT_TIME` at the tail of the insertion order; and the
live ids stay pairwise distinct as long as no `get` exhausts its retry
budget (an exhausted `get` still inserts the colliding id — see the
counterexample).
-/
theorem c9_pool_get_amended (p : UniqueStringPool) (gen : Nat → Str) (now : Int)
    (hreg : ∀ e ∈ p.order, (alookup p.values e.value).isSome = true)
    (hnd : (p.order.map (fun e => e.value)).Nodup) :
    (poolGet p gen now).calls ≤ MAX_ID_GEN_RETRY ∧
    ((poolGet p gen now).err = true ↔
      ∀ i < MAX_ID_GEN_RETRY, (alookup p.values (gen i)).isSome = true) ∧
    ((poolGet p gen now).err = false →
      alookup p.values (poolGet p gen now).value = none) ∧
    (poolGet p gen now).pool.order.getLast? =
      some ⟨p.next, (poolGet p gen now).value, now + MAX_ID_KEPT_TIME⟩ ∧
    ((poolGet p gen now).err = false →
      (((poolGet p gen now).pool.order.map (fun e => e.value)).Nodup)) := by
  refine ⟨?_, ?_, ?_, ?_, ?_⟩
  · simpa using getLoop_calls p.values gen MAX_ID_GEN_RETRY 0 []
  · show decide _ = true ↔ _
    rw [decide_eq_true_eq]
    rw [getLoop_err p.values gen MAX_ID_GEN_RETRY 0 []]
    constructor
    · intro h i hi
      exact h i (Nat.zero_le i) (by omega)
    · intro h i h1 h2
      exact h i (by omega)
  · intro herr
    simp only [poolGet, decide_eq_false_iff_not] at herr ⊢
    exact getLoop_success p.values gen MAX_ID_GEN_RETRY 0 [] herr
  · have hpool : (poolGet p gen now).pool.order =
        sweepFront (p.order ++
          [(⟨p.next, (poolGet p gen now).value, now + MAX_ID_KEPT_TIME⟩ : TimeAndValue)]) now := rfl
    rw [hpool]
    cases hord : p.order with
    | nil =>
      simp only [List.nil_append, sweepFront]
      rw [if_pos (show now < now + MAX_ID_KEPT_TIME by simp [MAX_ID_KEPT_TIME])]
      rfl
    | cons e rest =>
      simp only [List.cons_append, sweepFront]
      by_cases h : now < e.expire
      · rw [if_pos h]
        rw [← List.cons_append]
        exact List.getLast?_concat _
      · rw [if_neg h]
        exact List.getLast?_concat _
  · intro herr
    have hfresh : alookup p.values (poolGet p gen now).value = none := by
      simp only [poolGet, decide_eq_false_iff_not] at herr ⊢
      exact getLoop_success p.values gen MAX_ID_GEN_RETRY 0 [] herr
    have hnotmem : (poolGet p gen now).value ∉ p.order.map (fun e => e.value) := by
      intro hmem
      obtain ⟨e, he, hev⟩ := List.mem_map.mp hmem
      have := hreg e he
      rw [hev, hfresh] at this
      simp at this
    have hnd2 : ((p.order ++ [(⟨p.next, (poolGet p gen now).value, now + MAX_ID_KEPT_TIME⟩ : TimeAndValue)]).map
        (fun e => e.value)).Nodup := by
      rw [List.map_append, List.nodup_append]
      refine ⟨hnd, List.nodup_singleton _, ?_⟩
      intro a ha hb
      simp at hb
      exact hnotmem (hb ▸ ha)
    have hpool : (poolGet p gen now).pool.order =
        sweepFront (p.order ++
          [(⟨p.next, (poolGet p gen now).value, now + MAX_ID_KEPT_TIME⟩ : TimeAndValue)]) now := rfl
    rw [hpool]
    have hcases := sweepFront_cases (p.order ++
      [(⟨p.next, (poolGet p gen now).value, now + MAX_ID_KEPT_TIME⟩ : TimeAndValue)]) now
    cases hcases with
    | inl h => rw [h]; exact hnd2
    | inr h =>
      rw [h]
      exact (List.map_tail ..) ▸ hnd2.sublist (List.tail_sublist _)
  
end Gocomet

namespace Gocomet

/--
C9 counterexample: on a pool holding the live id `"a"` and a generator
that always proposes `"a"`, `get` exhausts its 100 retries, returns the
colliding id `"a"` together with the error — and still inserts it, so
the insertion-ordered list afterwards holds two unexpired entries with
the same id: live ids do collide after a `get` that exhausts its retry
budget.
-/
theorem c9_counterexample :
    c9res.err = true ∧
    c9res.value = str "a" ∧
    (alookup c9pool.values c9res.value).isSome = true ∧
    c9res.pool.order.map (fun e => e.value) = [str "a", str "a"] ∧
    c9res.pool.order.all (fun e => decide (50 ≤ e.expire)) = true ∧
    ¬ (c9res.pool.order.map (fun e => e.value)).Nodup := by
  decide

/-- C9 witness: a successful `get` on the empty pool. -/
theorem c9_witness :
    (poolGet emptyPool genA 0).calls ≤ MAX_ID_GEN_RETRY ∧
    (poolGet emptyPool genA 0).err = false ∧
    alookup emptyPool.values (poolGet emptyPool genA 0).value = none ∧
    (poolGet emptyPool genA 0).pool.order.getLast? =
      some ⟨emptyPool.next, (poolGet emptyPool genA 0).value, 0 + MAX_ID_KEPT_TIME⟩ ∧
    ((poolGet emptyPool genA 0).pool.order.map (fun e => e.value)).Nodup := by
  have h := c9_pool_get_amended emptyPool genA 0 (fun e he => by simp [emptyPool] at he)
    (by simp [emptyPool])
  have herr : (poolGet emptyPool genA 0).err = false := by decide
  exact ⟨h.1, herr, h.2.2.1 herr, h.2.2.2.1, h.2.2.2.2 herr⟩

/--
C10: for every client id and server state, `Server.subscribe` called
with a subscription containing a `,` panics with `not supported yet`
before touching the identity pool or the broker, instead of returning a
`(channel, ok)` result.
-/
theorem c10_subscribe_comma_panics (sv : ServerS) (clientId subscription : Str) (now : Int)
    (h : ',' ∈ subscription) :
    serverSubscribe sv clientId subscription now = .error "not supported yet" := by
  simp only [serverSubscribe, if_pos h]

/-- C10 witness: subscribing to `"/a,b"` panics. -/
theorem c10_witness :
    (',' ∈ str "/a,b") ∧
    serverSubscribe emptyServer (str "c") (str "/a,b") 0 = .error "not supported yet" := by
  have h : ',' ∈ str "/a,b" := by decide
  exact ⟨h, c10_subscribe_comma_panics emptyServer (str "c") (str "/a,b") 0 h⟩

end Gocomet
